import Mathlib

/-!
Verification of the request-dispatch and response-decoding engine of the
`telegram-bot-go` repository (`methods.go`), as a shallow embedding in Lean.

Conventions of the embedding:
* Go byte slices are `List Nat` (each entry one byte value).
* Go strings are Lean `String`; wire bodies that mix text and raw bytes are
  `List Nat`, with text converted via `strBytes` (faithful for ASCII data;
  Go escapes each UTF-8 byte separately, which we do not model).
* A Go `map[string]any` of request parameters is an association list
  `List (String × Value)` in the (arbitrary) iteration order Go chose.
* Fallible operations return `Option` / `Except`.
* The HTTP exchange, the filesystem, and file reads are oracles passed in as
  function arguments: the engine is synchronous and call-scoped, so a single
  call sees them as fixed functions.
-/

set_option maxRecDepth 4000

namespace TelegramBot

/-- Modelled from the spec: the `InputFile` record (declared outside
`methods.go`) with its four slots `URL`, `FileID`, `Filepath` (all Go string
pointers, hence `Option String`) and `Bytes` (a Go byte slice). -/
structure InputFile where
  url : Option String
  fileID : Option String
  filepath : Option String
  bytes : List Nat
deriving DecidableEq

/-- The tagged union of parameter values a caller can place into the
`map[string]any` of options, covering exactly the dynamic types that
`paramToString`, `checkIfFileParamExists` and `requestMultipartFormData`
distinguish with type switches:
* `int` / `int64` / `float32` / `bool` / `string` / `ChatAction` / `ParseMode`
  Go values (a Go `float32` is carried as the exact rational value of the
  IEEE-754 binary32 datum the caller stored);
* `InputFile` values;
* an open `*os.File` (an OS handle id plus the `Name()` the handle reports);
* a raw `[]byte` buffer;
* any other Go value, which the engine only ever passes to `json.Marshal`:
  we carry the outcome of that call (`some` compact JSON text, or `none`
  when marshalling fails, e.g. for a channel or a cyclic value). -/
inductive Value where
  | int (n : Int)
  | int64 (n : Int)
  | float32 (q : ℚ)
  | bool (b : Bool)
  | str (s : String)
  | chatAction (s : String)
  | parseMode (s : String)
  | inputFile (f : InputFile)
  | file (handle : Nat) (name : String)
  | bytes (bs : List Nat)
  | other (marshalled : Option String)
deriving DecidableEq

/-- Round the fraction `num / den` (with `den > 0`) to the nearest natural
number, ties to even — the rounding `strconv.FormatFloat` applies to the
exact decimal expansion of a binary float when cutting it to a fixed number
of digits. -/
def roundRatioHalfEven (num den : Nat) : Nat :=
  let f := num / den
  let r := num % den
  if 2 * r < den then f
  else if 2 * r > den then f + 1
  else if f % 2 = 0 then f else f + 1

/-- Zero-pad a decimal numeral on the left to 8 digits. -/
def pad8 (n : Nat) : String :=
  let s := toString n
  if s.length < 8 then String.mk (List.replicate (8 - s.length) '0') ++ s else s

/-- Go `fmt.Sprintf("%.8f", v)` for a `float32` value `v`: the exact value of
the binary32 datum, written in decimal with exactly 8 digits after the point
(correctly rounded, ties to even). `q` is that exact value, held as a reduced
fraction; the digits are computed from `|q| * 10^8` by exact integer
arithmetic. -/
def formatFixed8 (q : ℚ) : String :=
  let sign := if q.num < 0 then "-" else ""
  let n := roundRatioHalfEven (q.num.natAbs * 100000000) q.den
  sign ++ toString (n / 100000000) ++ "." ++ pad8 (n % 100000000)

/-- The RFC 4648 standard base64 alphabet. -/
def base64Table : List Char :=
  "ABCDEFGHIJKLMNOPQRSTUVWXYZabcdefghijklmnopqrstuvwxyz0123456789+/".data

/-- Character `i` of the base64 alphabet. -/
def b64 (i : Nat) : Char := base64Table.getD i 'A'

/-- Standard base64 encoding of a byte sequence with `=` padding — how Go
`json.Marshal` renders a `[]byte` value (before quoting). -/
def base64Encode : List Nat → List Char
  | b1 :: b2 :: b3 :: rest =>
    let n := b1 % 256 * 65536 + b2 % 256 * 256 + b3 % 256
    b64 (n / 262144) :: b64 (n / 4096 % 64) :: b64 (n / 64 % 64) :: b64 (n % 64) ::
      base64Encode rest
  | [b1, b2] =>
    let n := b1 % 256 * 65536 + b2 % 256 * 256
    [b64 (n / 262144), b64 (n / 4096 % 64), b64 (n / 64 % 64), '=']
  | [b1] =>
    let n := b1 % 256 * 65536
    [b64 (n / 262144), b64 (n / 4096 % 64), '=', '=']
  | [] => []

/-- Go `json.Marshal` of the dynamic value, for the kinds that reach the
`default` branch of `paramToString`: an `*os.File` marshals to `\x7b\x7d`
(a struct with only unexported fields), a `[]byte` marshals to its quoted
base64 text, and any `other` value carries its marshal outcome directly.
The remaining kinds never reach `json.Marshal` in the source. -/
def goJSONMarshal : Value → Option String
  | Value.file _ _ => some "\x7b\x7d"
  | Value.bytes bs => some ("\"" ++ String.mk (base64Encode bs) ++ "\"")
  | Value.other m => m
  | _ => none

/-- `paramToString` (methods.go): convert one parameter value to its wire
string. Mirrors the Go type switch case by case; returns `none` exactly when
the Go function returns `("", false)` (after logging): an `InputFile` with
neither URL nor file id, or a value whose `json.Marshal` fails. -/
def paramToString : Value → Option String
  | Value.int n => some (toString n)
  | Value.int64 n => some (toString n)
  | Value.float32 q => some (formatFixed8 q)
  | Value.bool b => some (if b then "true" else "false")
  | Value.str s => some s
  | Value.chatAction s => some s
  | Value.parseMode s => some s
  | Value.inputFile f =>
    match f.url with
    | some u => some u
    | none =>
      match f.fileID with
      | some id => some id
      | none => none
  | v => goJSONMarshal v

/-- The body of the type switch inside `checkIfFileParamExists` (methods.go):
`case *os.File, []byte: return true; case InputFile: if len(val.Bytes) > 0 ||
val.Filepath != nil { return true }`. -/
def isFileParam : Value → Bool
  | Value.file _ _ => true
  | Value.bytes _ => true
  | Value.inputFile f => !f.bytes.isEmpty || f.filepath.isSome
  | _ => false

/-- `checkIfFileParamExists` (methods.go): true when some value in the
parameter map is an `*os.File`, a `[]byte`, or an `InputFile` with
`len(Bytes) > 0 || Filepath != nil`. -/
def checkIfFileParamExists (params : List (String × Value)) : Bool :=
  params.any fun kv => isFileParam kv.2

/-- The two request body encodings `request` chooses between. -/
inductive Transport where
  | urlencoded
  | multipart
deriving DecidableEq

/-- The transport decision made by `request` (methods.go): multipart iff
`checkIfFileParamExists` reports an attachment. -/
def selectTransport (params : List (String × Value)) : Transport :=
  if checkIfFileParamExists params then Transport.multipart else Transport.urlencoded

/-- The spec's notion of an attachment value: an open file handle, a raw byte
buffer, or an `InputFile` carrying local bytes or a local filepath. Stated
from the claim's words, to be compared with `checkIfFileParamExists`. -/
def IsAttachment : Value → Prop
  | Value.file _ _ => True
  | Value.bytes _ => True
  | Value.inputFile f => f.bytes ≠ [] ∨ f.filepath ≠ none
  | _ => False

theorem isFileParam_iff (v : Value) : isFileParam v = true ↔ IsAttachment v := by
  cases v <;> simp [isFileParam, IsAttachment, Option.isSome_iff_ne_none]

theorem checkIfFileParamExists_iff (params : List (String × Value)) :
    checkIfFileParamExists params = true ↔ ∃ kv ∈ params, IsAttachment kv.2 := by
  simp [checkIfFileParamExists, List.any_eq_true, isFileParam_iff]

/-- C1: transport selection is all-or-nothing: the request is sent as
multipart form data iff at least one parameter value is an attachment (an
open file handle, a raw byte buffer, or an `InputFile` carrying local bytes
or a local filepath), and urlencoded otherwise; an `InputFile` carrying only
a URL or file-id does not trigger multipart. -/
theorem transport_selection_all_or_nothing (params : List (String × Value)) :
    (selectTransport params = Transport.multipart ↔ ∃ kv ∈ params, IsAttachment kv.2)
    ∧ (selectTransport params = Transport.urlencoded ↔ ¬ ∃ kv ∈ params, IsAttachment kv.2) := by
  have key := checkIfFileParamExists_iff params
  by_cases hc : checkIfFileParamExists params = true
  · simp [selectTransport, hc, key.mp hc]
  · constructor
    · simp only [selectTransport, if_neg hc]
      constructor
      · intro h; cases h
      · intro he; exact absurd (key.mpr he) hc
    · simp only [selectTransport, if_neg hc]
      constructor
      · intro _ he; exact hc (key.mpr he)
      · intro _; trivial

/-- Uppercase hexadecimal digit `n` (for `n < 16`). -/
def hexDigit (n : Nat) : Char := "0123456789ABCDEF".data.getD n '0'

/-- Whether Go `url.QueryEscape` leaves the byte unescaped: ASCII letters,
digits, and `-` `_` `.` `~`. -/
def isUnreservedChar (c : Char) : Bool :=
  c.isAlphanum || c = '-' || c = '_' || c = '.' || c = '~'

/-- Go `url.QueryEscape` on one byte: unreserved bytes kept, space becomes
`+`, everything else `%XX` with uppercase hex. -/
def queryEscapeChar (c : Char) : List Char :=
  if isUnreservedChar c then [c]
  else if c = ' ' then ['+']
  else ['%', hexDigit (c.toNat / 16 % 16), hexDigit (c.toNat % 16)]

/-- Go `url.QueryEscape` of a string (modelled bytewise over ASCII data). -/
def queryEscape (s : String) : String :=
  String.mk (s.data.flatMap queryEscapeChar)

/-- The loop of `requestURLEncodedFormData` (methods.go): run every parameter
through `paramToString` and keep the fields that encode successfully
(`if strValue, ok := b.paramToString(value); ok`); a failing field is
skipped and the loop continues. -/
def collectParams : List (String × Value) → List (String × String)
  | [] => []
  | (k, v) :: rest =>
    match paramToString v with
    | some s => (k, s) :: collectParams rest
    | none => collectParams rest

/-- The comparator `url.Values.Encode` sorts fields by: key order. -/
def keyLE (p q : String × String) : Bool := decide (p.1 ≤ q.1)

/-- Go `url.Values.Encode`: sort fields by key, escape keys and values, join
as `k=v` pairs with `&`. -/
def valuesEncode (vs : List (String × String)) : String :=
  String.intercalate "&"
    ((vs.mergeSort keyLE).map fun kv => queryEscape kv.1 ++ "=" ++ queryEscape kv.2)

/-- The urlencoded request body `requestURLEncodedFormData` builds:
`paramValues.Encode()` over the successfully encoded fields. -/
def urlencodedBody (params : List (String × Value)) : String :=
  valuesEncode (collectParams params)

/-- `requestURLEncodedFormData` (methods.go), with the HTTP request build,
send, and body read abstracted as the `exchange` oracle (its `Except` failure
covers build, network, and read errors alike): the call always proceeds to
the exchange with the body of the successfully encoded fields. -/
def requestURLEncodedFormData (exchange : String → Except String (List Nat))
    (params : List (String × Value)) : Except String (List Nat) :=
  exchange (urlencodedBody params)

theorem mem_collectParams_key {k : String} {s : String} :
    ∀ {ps : List (String × Value)}, (k, s) ∈ collectParams ps → k ∈ ps.map Prod.fst := by
  intro ps
  induction ps with
  | nil => intro h; cases h
  | cons kv rest ih =>
    obtain ⟨k', v'⟩ := kv
    intro h
    simp only [collectParams] at h
    cases henc : paramToString v' with
    | some s0 =>
      rw [henc] at h
      rcases List.mem_cons.mp h with heq | hrest
      · cases heq; simp
      · simp [ih hrest]
    | none =>
      rw [henc] at h
      simp [ih h]

/-- C4: a parameter on which the encoder fails is omitted from the urlencoded
request body while every successfully encoded field is still sent — under the
map invariant that field names are unique, field `k` appears among the
collected fields with value `s` iff `paramToString` succeeded with `s` — and
the failure never aborts the call: the dispatch still performs the exchange
with the encoding of the collected fields. -/
theorem encoding_failure_drops_single_field
    (exchange : String → Except String (List Nat))
    (params : List (String × Value)) (k : String) (v : Value)
    (hnd : (params.map Prod.fst).Nodup) (hmem : (k, v) ∈ params) :
    (∀ s, (k, s) ∈ collectParams params ↔ paramToString v = some s)
    ∧ requestURLEncodedFormData exchange params
        = exchange (valuesEncode (collectParams params)) := by
  refine ⟨?_, rfl⟩
  induction params with
  | nil => cases hmem
  | cons kv rest ih =>
    obtain ⟨k', v'⟩ := kv
    simp only [List.map_cons, List.nodup_cons] at hnd
    rcases List.mem_cons.mp hmem with heq | hrest
    · obtain ⟨hk, hv⟩ := Prod.mk.injEq .. ▸ heq
      subst hk; subst hv
      intro s
      simp only [collectParams]
      cases henc : paramToString v with
      | some s0 =>
        constructor
        · intro h
          rcases List.mem_cons.mp h with heq2 | hrest2
          · cases heq2; rfl
          · exact absurd (mem_collectParams_key hrest2) hnd.1
        · intro h
          injection h with h
          subst h
          exact List.mem_cons_self _ _
      | none =>
        constructor
        · intro h; exact absurd (mem_collectParams_key h) hnd.1
        · intro h
          exact Option.noConfusion h
    · have hk : k ≠ k' := by
        intro he
        exact hnd.1 (he ▸ List.mem_map_of_mem Prod.fst hrest)
      intro s
      simp only [collectParams]
      cases henc : paramToString v' with
      | some s0 =>
        rw [List.mem_cons]
        constructor
        · intro h
          rcases h with heq2 | hrest2
          · cases heq2; exact absurd rfl hk
          · exact (ih hnd.2 hrest s).mp hrest2
        · intro h; exact Or.inr ((ih hnd.2 hrest s).mpr h)
      | none => exact ih hnd.2 hrest s

/-- Witness for C4 at a concrete parameter set: the `InputFile` with neither
URL nor file id fails to encode and is dropped, while the text field is kept,
and the exchange still runs on the remaining field. -/
theorem encoding_failure_drops_single_field_witness :
    (([("chat_id", Value.str "1"),
       ("photo", Value.inputFile ⟨none, none, none, []⟩)].map Prod.fst).Nodup
      ∧ ("photo", Value.inputFile ⟨none, none, none, []⟩)
          ∈ [("chat_id", Value.str "1"), ("photo", Value.inputFile ⟨none, none, none, []⟩)])
    ∧ (("photo", "x") ∈ collectParams
          [("chat_id", Value.str "1"), ("photo", Value.inputFile ⟨none, none, none, []⟩)]
        ↔ paramToString (Value.inputFile ⟨none, none, none, []⟩) = some "x")
    ∧ requestURLEncodedFormData Except.error
        [("chat_id", Value.str "1"), ("photo", Value.inputFile ⟨none, none, none, []⟩)]
        = Except.error (valuesEncode (collectParams
            [("chat_id", Value.str "1"), ("photo", Value.inputFile ⟨none, none, none, []⟩)])) := by
  have h := encoding_failure_drops_single_field Except.error
    [("chat_id", Value.str "1"), ("photo", Value.inputFile ⟨none, none, none, []⟩)]
    "photo" (Value.inputFile ⟨none, none, none, []⟩) (by decide) (by decide)
  exact ⟨⟨by decide, by decide⟩, h.1 "x", h.2⟩

theorem valuesEncode_perm (vs1 vs2 : List (String × String))
    (hp : vs1.Perm vs2) (hnd : (vs1.map Prod.fst).Nodup) :
    valuesEncode vs1 = valuesEncode vs2 := by
  have htrans : ∀ (a b c : String × String),
      keyLE a b = true → keyLE b c = true → keyLE a c = true := by
    intro a b c hab hbc
    simp only [keyLE, decide_eq_true_eq] at hab hbc ⊢
    exact le_trans hab hbc
  have htotal : ∀ (a b : String × String), (keyLE a b || keyLE b a) = true := by
    intro a b
    simp only [keyLE, Bool.or_eq_true, decide_eq_true_eq]
    exact le_total a.1 b.1
  have hperm12 : (vs1.mergeSort keyLE).Perm (vs2.mergeSort keyLE) :=
    (List.mergeSort_perm vs1 keyLE).trans (hp.trans (List.mergeSort_perm vs2 keyLE).symm)
  have hnd2 : (vs2.map Prod.fst).Nodup := ((hp.map Prod.fst).nodup_iff).mp hnd
  have hsorted : ∀ (vs : List (String × String)), (vs.map Prod.fst).Nodup →
      List.Sorted (fun a b : String × String => keyLE a b = true ∧ a.1 ≠ b.1)
        (vs.mergeSort keyLE) := by
    intro vs hvs
    have h1 : List.Pairwise (fun a b => keyLE a b = true) (vs.mergeSort keyLE) :=
      List.sorted_mergeSort htrans htotal vs
    have hndm : ((vs.mergeSort keyLE).map Prod.fst).Nodup :=
      (((List.mergeSort_perm vs keyLE).map Prod.fst).nodup_iff).mpr hvs
    have h2 : List.Pairwise (fun a b : String × String => a.1 ≠ b.1) (vs.mergeSort keyLE) :=
      List.pairwise_map.mp hndm
    exact h1.and h2
  haveI : IsAntisymm (String × String)
      (fun a b : String × String => keyLE a b = true ∧ a.1 ≠ b.1) := by
    constructor
    intro a b hab hba
    simp only [keyLE, decide_eq_true_eq] at hab hba
    exact absurd (le_antisymm hab.1 hba.1) hab.2
  have heq : vs1.mergeSort keyLE = vs2.mergeSort keyLE :=
    List.eq_of_perm_of_sorted hperm12 (hsorted vs1 hnd) (hsorted vs2 hnd2)
  simp only [valuesEncode, heq]

/-- ASCII text rendered as wire bytes. -/
def strBytes (s : String) : List Nat := s.data.map Char.toNat

/-- The PNG magic bytes of the stdlib sniffing table. -/
def pngSig : List Nat := [0x89, 0x50, 0x4E, 0x47, 0x0D, 0x0A, 0x1A, 0x0A]

/-- The JPEG magic bytes of the stdlib sniffing table. -/
def jpegSig : List Nat := [0xFF, 0xD8, 0xFF]

/-- The GIF87a magic bytes of the stdlib sniffing table. -/
def gif87Sig : List Nat := strBytes "GIF87a"

/-- The GIF89a magic bytes of the stdlib sniffing table. -/
def gif89Sig : List Nat := strBytes "GIF89a"

/-- A byte the stdlib text heuristic treats as binary data (its presence
makes the buffer non-text). -/
def isBinaryByte (b : Nat) : Bool :=
  decide (b ≤ 8) || decide (b = 11) || decide (14 ≤ b ∧ b ≤ 26) || decide (28 ≤ b ∧ b ≤ 31)

/-- Model of Go stdlib `http.DetectContentType`, restricted to the signatures
relevant here (PNG, JPEG, GIF, the plain-text heuristic, and the
`application/octet-stream` fallback): inspect the first 512 bytes and always
return a full MIME type containing a slash — there is no inconclusive result. -/
def detectContentType (data : List Nat) : String :=
  if pngSig.isPrefixOf (data.take 512) then "image/png"
  else if jpegSig.isPrefixOf (data.take 512) then "image/jpeg"
  else if gif87Sig.isPrefixOf (data.take 512) then "image/gif"
  else if gif89Sig.isPrefixOf (data.take 512) then "image/gif"
  else if (data.take 512).all (fun b => !isBinaryByte b) then "text/plain; charset=utf-8"
  else "application/octet-stream"

/-- Helper for Go `strings.Split` with a one-character separator, over the
character list: accumulate the current piece (reversed) and cut at each
separator. -/
def splitCharsAux (sep : Char) : List Char → List Char → List String
  | [], acc => [String.mk acc.reverse]
  | c :: rest, acc =>
    if c = sep then String.mk acc.reverse :: splitCharsAux sep rest []
    else splitCharsAux sep rest (c :: acc)

/-- Go `strings.Split(s, sep)` for a one-character separator (the only uses
in `getExtension` are `"/"` and `";"`). -/
def splitOnChar (sep : Char) (s : String) : List String :=
  splitCharsAux sep s.data []

/-- The string surgery of `getExtension` (methods.go): split the content type
on `/`; if that yields at least two pieces, split the second piece on `;` and
return its first component; otherwise return the empty string. -/
def subtypeOf (ct : String) : String :=
  match splitOnChar '/' ct with
  | _ :: sub :: _ =>
    match splitOnChar ';' sub with
    | s :: _ => s
    | [] => ""
  | _ => ""

/-- `getExtension` (methods.go): the MIME subtype of the sniffed content type
of the byte buffer. -/
def getExtension (data : List Nat) : String :=
  subtypeOf (detectContentType data)

theorem detectContentType_mem (data : List Nat) :
    detectContentType data ∈
      ["image/png", "image/jpeg", "image/gif", "text/plain; charset=utf-8",
       "application/octet-stream"] := by
  unfold detectContentType
  split
  · simp
  · split
    · simp
    · split
      · simp
      · split
        · simp
        · split
          · simp
          · simp

/-- C6 counterexample: the byte buffer `[1, 2]` has no recognizable signature
(its bytes are binary control bytes matching no magic number), yet the
sniffer returns `"octet-stream"` — not the empty string the claim requires. -/
theorem sniffer_unrecognized_counterexample :
    detectContentType [1, 2] = "application/octet-stream"
    ∧ getExtension [1, 2] = "octet-stream"
    ∧ "octet-stream" ≠ "" := by
  refine ⟨by decide, by decide, by decide⟩

/-- C6 (amended): the sniffer returns the MIME subtype of the detected
content type — PNG magic bytes yield `"png"`, JPEG yields `"jpeg"` — and for
bytes with no recognizable signature it returns `"octet-stream"` (the subtype
of the stdlib fallback type `application/octet-stream`); it never returns the
empty string, because the stdlib detector always produces a type containing a
slash with a nonempty subtype. -/
theorem sniffer_returns_detected_subtype (data : List Nat) :
    getExtension data ≠ ""
    ∧ (detectContentType data = "image/png" → getExtension data = "png")
    ∧ (detectContentType data = "image/jpeg" → getExtension data = "jpeg")
    ∧ (detectContentType data = "application/octet-stream" →
        getExtension data = "octet-stream") := by
  have hmem := detectContentType_mem data
  refine ⟨?_, ?_, ?_, ?_⟩
  · unfold getExtension
    rcases List.mem_cons.mp hmem with h | hmem <;>
      [skip; rcases List.mem_cons.mp hmem with h | hmem] <;>
      [skip; skip; rcases List.mem_cons.mp hmem with h | hmem] <;>
      [skip; skip; skip; rcases List.mem_cons.mp hmem with h | hmem] <;>
      [skip; skip; skip; skip; rcases List.mem_cons.mp hmem with h | hmem]
    · rw [h]; decide
    · rw [h]; decide
    · rw [h]; decide
    · rw [h]; decide
    · rw [h]; decide
    · cases hmem
  · intro h; unfold getExtension; rw [h]; decide
  · intro h; unfold getExtension; rw [h]; decide
  · intro h; unfold getExtension; rw [h]; decide

/-- Witness for C6 (amended): on concrete PNG-signature bytes the sniffer
detects `image/png` and yields `"png"`. -/
theorem sniffer_returns_detected_subtype_witness :
    detectContentType pngSig = "image/png" ∧ getExtension pngSig = "png" :=
  ⟨by decide, (sniffer_returns_detected_subtype pngSig).2.1 (by decide)⟩

/-- C7 counterexample: a Go `float32` cannot hold 3.14159265 exactly. The
representable values in the binade [2, 4) are the numbers m·2⁻²² with
2²³ ≤ m < 2²⁴, and the inequality below shows m = 13176795 gives the grid
point nearest to 3.14159265, i.e. `float32(3.14159265)` stores
13176795/4194304 = 3.14159274101… . Formatting that value with `%.8f` yields
`"3.14159274"`, not the `"3.14159265"` the claim requires. -/
theorem float_encoding_counterexample :
    mkRat 13176795 4194304 = (13176795 : ℚ) / 4194304
    ∧ ((2 : ℚ) ≤ 13176795 / 4194304 ∧ (13176795 : ℚ) / 4194304 < 4
      ∧ (8388608 : Nat) ≤ 13176795 ∧ (13176795 : Nat) < 16777216)
    ∧ |(314159265 : ℚ) / 100000000 * 4194304 - 13176795| < 1 / 2
    ∧ paramToString (Value.float32 (mkRat 13176795 4194304)) = some "3.14159274"
    ∧ "3.14159274" ≠ "3.14159265" := by
  refine ⟨by rw [Rat.mkRat_eq_div]; norm_num,
    ⟨by norm_num, by norm_num, by norm_num, by norm_num⟩, ?_, by decide, by decide⟩
  rw [abs_lt]
  constructor <;> norm_num

/-- C7 (amended): the encoder produces canonical text for scalar kinds:
boolean `true` encodes to `"true"` and `false` to `"false"`; a `float32`
value encodes to the fixed 8-decimal-place text of the exact binary32 value
it stores, so the `float32` nearest to 3.14159265 (which stores the value
13176795/4194304) encodes to `"3.14159274"`. -/
theorem scalar_encoding_canonical :
    paramToString (Value.bool true) = some "true"
    ∧ paramToString (Value.bool false) = some "false"
    ∧ paramToString (Value.float32 (mkRat 13176795 4194304)) = some "3.14159274"
    ∧ ∀ q : ℚ, paramToString (Value.float32 q) = some (formatFixed8 q) := by
  refine ⟨by decide, by decide, by decide, fun q => rfl⟩

/-- Fuel-indexed core of Go `strings.ReplaceAll(s, t, u)` over character
lists, for a nonempty pattern `t`: scan left to right, replacing each
non-overlapping occurrence of `t` by `u`. The fuel only bounds recursion
depth; callers pass `s.length`, which always suffices since each step
consumes at least one character. -/
def replaceAllAux : Nat → List Char → List Char → List Char → List Char
  | 0, _, _, _ => []
  | _ + 1, [], _, _ => []
  | fuel + 1, c :: rest, t, u =>
    if t.isEmpty = false ∧ t.isPrefixOf (c :: rest) = true then
      u ++ replaceAllAux fuel ((c :: rest).drop t.length) t u
    else
      c :: replaceAllAux fuel rest t u

/-- Go `strings.ReplaceAll(s, t, u)` for a nonempty pattern `t`. (Go treats
an empty pattern specially — inserting `u` between characters — but the
redactor only ever passes the bot token and the claim presumes it nonempty.) -/
def replaceAll (s t u : List Char) : List Char :=
  replaceAllAux s.length s t u

/-- If some nonempty prefix of the pattern has already been matched and the
pattern does not continue at the current scan position, the processed
remainder of the input cannot start with the rest of the pattern — the key
invariant ruling out occurrences that straddle a scan position where the
matcher declined to fire. -/
theorem replaceAllAux_no_partial (t u : List Char) (hu : u ≠ [])
    (hhead : ∀ c, u.head? = some c → c ∉ t) :
    ∀ (t0 : List Char), (∃ p, p ≠ [] ∧ p ++ t0 = t) →
      ∀ (fuel : Nat) (s r : List Char), ¬ t0 <+: s →
        t0 ++ r ≠ replaceAllAux fuel s t u := by
  intro t0
  induction t0 with
  | nil =>
    intro _ fuel s r hnp _
    exact hnp (List.nil_prefix)
  | cons d t0' ih =>
    intro hex fuel s r hnp he
    obtain ⟨p, hp, hpt⟩ := hex
    cases fuel with
    | zero => simp [replaceAllAux] at he
    | succ n =>
      cases s with
      | nil => simp [replaceAllAux] at he
      | cons a s' =>
        rw [replaceAllAux] at he
        by_cases hm : (t.isEmpty = false ∧ t.isPrefixOf (a :: s') = true)
        · rw [if_pos hm] at he
          cases u with
          | nil => exact hu rfl
          | cons u1 u'' =>
            simp only [List.cons_append] at he
            injection he with h1 _
            have hd : d ∈ t := by
              rw [← hpt]
              exact List.mem_append.mpr (Or.inr (List.mem_cons_self d t0'))
            exact hhead u1 rfl (h1 ▸ hd)
        · rw [if_neg hm] at he
          simp only [List.cons_append] at he
          injection he with h1 h2
          subst h1
          refine ih ⟨p ++ [d], by simp, by rw [List.append_assoc]; exact hpt⟩ n s' r ?_ h2
          intro hq
          exact hnp (List.cons_prefix_cons.mpr ⟨rfl, hq⟩)

/-- After replacement, the (nonempty) pattern occurs nowhere in the output,
provided the pattern does not contain the substitute's first or last
character and does not itself occur inside the substitute. An occurrence in
the output would have to lie inside a residual stretch of the input (where
the scanner proved there is no match), lie inside one substituted copy
(excluded by `hsub`), or cross a copy's left or right edge (forcing the
copy's first or last character into the pattern, excluded by `hhead` and
`hlast`). -/
theorem replaceAllAux_no_occurrence (t u : List Char) (ht : t ≠ []) (hu : u ≠ [])
    (hhead : ∀ c, u.head? = some c → c ∉ t)
    (hlast : ∀ (init : List Char) (c : Char), u = init ++ [c] → c ∉ t)
    (hsub : ∀ l' r' : List Char, u ≠ l' ++ t ++ r') :
    ∀ (fuel : Nat) (s l r : List Char), replaceAllAux fuel s t u ≠ l ++ t ++ r := by
  intro fuel
  induction fuel with
  | zero =>
    intro s l r he
    simp only [replaceAllAux] at he
    rcases List.append_eq_nil.mp he.symm with ⟨h1, -⟩
    rcases List.append_eq_nil.mp h1 with ⟨-, h3⟩
    exact ht h3
  | succ n ih =>
    intro s l r he
    cases s with
    | nil =>
      simp only [replaceAllAux] at he
      rcases List.append_eq_nil.mp he.symm with ⟨h1, -⟩
      rcases List.append_eq_nil.mp h1 with ⟨-, h3⟩
      exact ht h3
    | cons c rest =>
      rw [replaceAllAux] at he
      by_cases hm : (t.isEmpty = false ∧ t.isPrefixOf (c :: rest) = true)
      · rw [if_pos hm] at he
        rw [List.append_assoc] at he
        rcases List.append_eq_append_iff.mp he with ⟨a', hl, hR⟩ | ⟨c', hu', htr⟩
        · exact ih _ a' r (by rw [hR, ← List.append_assoc])
        · cases c' with
          | nil =>
            simp only [List.nil_append] at htr
            exact ih _ [] r (by rw [← htr]; simp)
          | cons e c'' =>
            rcases List.append_eq_append_iff.mp htr with ⟨a', ha1, -⟩ | ⟨c2, hc1, -⟩
            · exact hsub l a' (by rw [hu', ha1, ← List.append_assoc])
            · rcases List.eq_nil_or_concat (e :: c'') with habs | ⟨ys, y, hy⟩
              · exact List.cons_ne_nil e c'' habs
              · have hyu : u = (l ++ ys) ++ [y] := by
                  rw [hu', hy, List.concat_eq_append, List.append_assoc]
                have hyt : y ∈ t := by
                  rw [hc1, hy, List.concat_eq_append]
                  simp
                exact hlast (l ++ ys) y hyu hyt
      · rw [if_neg hm] at he
        cases l with
        | nil =>
          simp only [List.nil_append] at he
          cases t with
          | nil => exact ht rfl
          | cons t1 t0 =>
            simp only [List.cons_append] at he
            injection he with h1 h2
            subst h1
            have hnp' : ¬ (c :: t0) <+: (c :: rest) := by
              intro hpfx
              exact hm ⟨by simp, List.isPrefixOf_iff_prefix.mpr hpfx⟩
            have hnp0 : ¬ t0 <+: rest := fun hq =>
              hnp' (List.cons_prefix_cons.mpr ⟨rfl, hq⟩)
            exact replaceAllAux_no_partial (c :: t0) u hu hhead t0
              ⟨[c], by simp, rfl⟩ n rest r hnp0 h2.symm
        | cons l1 l' =>
          simp only [List.cons_append] at he
          injection he with h1 h2
          exact ih rest l' r (by rw [h2])

theorem replaceAll_no_occurrence (t u : List Char) (ht : t ≠ []) (hu : u ≠ [])
    (hhead : ∀ c, u.head? = some c → c ∉ t)
    (hlast : ∀ (init : List Char) (c : Char), u = init ++ [c] → c ∉ t)
    (hsub : ∀ l' r' : List Char, u ≠ l' ++ t ++ r') (s l r : List Char) :
    replaceAll s t u ≠ l ++ t ++ r :=
  replaceAllAux_no_occurrence t u ht hu hhead hlast hsub s.length s l r

/-- Bounded check that `t` occurs as a contiguous run inside `l`. -/
def hasOccurrence (t : List Char) : List Char → Bool
  | [] => t.isEmpty
  | c :: r => t.isPrefixOf (c :: r) || hasOccurrence t r

theorem hasOccurrence_iff (t : List Char) :
    ∀ l, hasOccurrence t l = true ↔ ∃ pre post, l = pre ++ t ++ post := by
  intro l
  induction l with
  | nil =>
    simp only [hasOccurrence, List.isEmpty_iff]
    constructor
    · intro h; subst h; exact ⟨[], [], rfl⟩
    · rintro ⟨pre, post, hpp⟩
      rcases List.append_eq_nil.mp hpp.symm with ⟨h1, -⟩
      rcases List.append_eq_nil.mp h1 with ⟨-, h3⟩
      exact h3
  | cons c r ih =>
    simp only [hasOccurrence, Bool.or_eq_true]
    constructor
    · rintro (h | h)
      · obtain ⟨post, hpost⟩ := List.isPrefixOf_iff_prefix.mp h
        exact ⟨[], post, by rw [List.nil_append, hpost]⟩
      · obtain ⟨pre, post, hpp⟩ := ih.mp h
        exact ⟨c :: pre, post, by rw [hpp]; rfl⟩
    · rintro ⟨pre, post, hpp⟩
      cases pre with
      | nil =>
        left
        rw [List.nil_append] at hpp
        exact List.isPrefixOf_iff_prefix.mpr ⟨post, hpp.symm⟩
      | cons p1 pre' =>
        right
        simp only [List.cons_append] at hpp
        injection hpp with _ h2
        exact ih.mpr ⟨pre', post, h2⟩

theorem hasOccurrence_replaceAll_false (t u : List Char) (ht : t ≠ []) (hu : u ≠ [])
    (hhead : ∀ c, u.head? = some c → c ∉ t)
    (hlast : ∀ (init : List Char) (c : Char), u = init ++ [c] → c ∉ t)
    (hsub : ∀ l' r' : List Char, u ≠ l' ++ t ++ r') (s : List Char) :
    hasOccurrence t (replaceAll s t u) = false := by
  cases h : hasOccurrence t (replaceAll s t u) with
  | false => rfl
  | true =>
    obtain ⟨pre, post, hpp⟩ := (hasOccurrence_iff t _).mp h
    exact absurd hpp (replaceAll_no_occurrence t u ht hu hhead hlast hsub s pre post)

/-- Modelled from the spec: the fixed placeholder the Error Redactor
substitutes for the authentication token (declared outside `methods.go`). -/
def redactedString : String := "<REDACTED>"

/-- Modelled from the spec: the bot-API base URL that `request` prepends to
the token and method name (declared outside `methods.go`). -/
def apiBaseURL : String := "https://api.telegram.org/bot"

/-- Modelled from the spec: the Error Redactor (`b.redact`, declared outside
`methods.go`): replace every occurrence of the authentication token in the
error text with the fixed placeholder. -/
def redact (token msg : String) : String :=
  String.mk (replaceAll msg.data token.data redactedString.data)

/-- `request` (methods.go): build the API URL, choose the transport by
`checkIfFileParamExists`, dispatch, and return the response bytes on
success; on any dispatcher error (request build failure, network failure, or
response-read failure — all of which surface as the dispatcher's `error`)
return `fmt.Errorf(b.redact(err.Error()))`, the redacted error text. -/
def request (token method : String) (params : List (String × Value))
    (dispatch : Transport → String → Except String (List Nat)) :
    Except String (List Nat) :=
  match dispatch (selectTransport params) (apiBaseURL ++ token ++ "/" ++ method) with
  | Except.ok resp => Except.ok resp
  | Except.error e => Except.error (redact token e)

/-- C3: on every error path of a dispatch, the surfaced error text contains
no occurrence of the authentication token: whatever error string the
dispatcher produced, `request` returns it with every occurrence of the token
replaced by the fixed placeholder. Proved for every token that is nonempty,
contains neither `<` nor `>` (the placeholder's first and last characters),
and does not itself occur inside the placeholder `"<REDACTED>"`. Every real
bot token — digits and a colon followed by a long secret over letters,
digits, `_`, `-` — satisfies these conditions; the excluded degenerate
tokens genuinely falsify the property (a token occurring inside the
placeholder appears verbatim in every substitution, and one containing `<`
or `>` can be re-formed across a substitution edge). -/
theorem error_paths_redact_token (token method : String)
    (params : List (String × Value))
    (dispatch : Transport → String → Except String (List Nat))
    (htok : token.data ≠ [])
    (hlt : '<' ∉ token.data) (hgt : '>' ∉ token.data)
    (hsub : hasOccurrence token.data redactedString.data = false) :
    ∀ e, request token method params dispatch = Except.error e →
      hasOccurrence token.data e.data = false := by
  have hhead : ∀ c, redactedString.data.head? = some c → c ∉ token.data := by
    intro c hc
    have h0 : redactedString.data.head? = some '<' := rfl
    rw [h0] at hc
    injection hc with hc
    exact hc ▸ hlt
  have hlast : ∀ (init : List Char) (c : Char),
      redactedString.data = init ++ [c] → c ∉ token.data := by
    intro init c hic
    have h1 : (init ++ [c]).getLast? = some c := List.getLast?_concat init
    rw [← hic] at h1
    have h2 : redactedString.data.getLast? = some '>' := rfl
    rw [h2] at h1
    injection h1 with h1
    exact h1 ▸ hgt
  have hsub' : ∀ l r : List Char, redactedString.data ≠ l ++ token.data ++ r := by
    intro l r heq
    have hocc := (hasOccurrence_iff token.data redactedString.data).mpr ⟨l, r, heq⟩
    rw [hsub] at hocc
    exact Bool.false_ne_true hocc
  intro e he
  unfold request at he
  cases hd : dispatch (selectTransport params) (apiBaseURL ++ token ++ "/" ++ method) with
  | ok resp => rw [hd] at he; exact absurd he (by simp)
  | error msg =>
    rw [hd] at he
    injection he with he2
    rw [← he2]
    exact hasOccurrence_replaceAll_false token.data redactedString.data htok
      (by decide) hhead hlast hsub' msg.data

/-- Witness for C3 at a realistically shaped bot token (numeric id, colon,
mixed-case secret containing the placeholder letters R, E, D, A, C, T): the
raw exchange error embeds the request URL with the token, the hypotheses
hold of the token, and the error surfaced by `request` contains no
occurrence of it. -/
theorem error_paths_redact_token_witness :
    ("123456789:AAHdqTcvCH1vGWJxfSeofSAs0K5PALDsaw".data ≠ []
      ∧ '<' ∉ "123456789:AAHdqTcvCH1vGWJxfSeofSAs0K5PALDsaw".data
      ∧ '>' ∉ "123456789:AAHdqTcvCH1vGWJxfSeofSAs0K5PALDsaw".data
      ∧ hasOccurrence "123456789:AAHdqTcvCH1vGWJxfSeofSAs0K5PALDsaw".data
          redactedString.data = false)
    ∧ hasOccurrence "123456789:AAHdqTcvCH1vGWJxfSeofSAs0K5PALDsaw".data
        "request error: Post https://api.telegram.org/bot123456789:AAHdqTcvCH1vGWJxfSeofSAs0K5PALDsaw/sendMessage: EOF".data
        = true
    ∧ hasOccurrence "123456789:AAHdqTcvCH1vGWJxfSeofSAs0K5PALDsaw".data
        (redact "123456789:AAHdqTcvCH1vGWJxfSeofSAs0K5PALDsaw"
          "request error: Post https://api.telegram.org/bot123456789:AAHdqTcvCH1vGWJxfSeofSAs0K5PALDsaw/sendMessage: EOF").data
        = false := by
  refine ⟨⟨by decide, by decide, by decide, by decide⟩, by decide, ?_⟩
  exact error_paths_redact_token "123456789:AAHdqTcvCH1vGWJxfSeofSAs0K5PALDsaw"
    "sendMessage" []
    (fun _ _ => Except.error
      "request error: Post https://api.telegram.org/bot123456789:AAHdqTcvCH1vGWJxfSeofSAs0K5PALDsaw/sendMessage: EOF")
    (by decide) (by decide) (by decide) (by decide)
    (redact "123456789:AAHdqTcvCH1vGWJxfSeofSAs0K5PALDsaw"
      "request error: Post https://api.telegram.org/bot123456789:AAHdqTcvCH1vGWJxfSeofSAs0K5PALDsaw/sendMessage: EOF")
    rfl

/-- One observable action of the webhook handler, in order of occurrence:
a `b.verbose` log, a `b.error` log, or an invocation of the registered
update handler `b.updateHandler(b, update, err)`. `U` stands for the
`Update` record type (declared outside `methods.go`); the decoded update and
the error argument are carried as the handler received them. -/
inductive WebhookEvent (U : Type) where
  | verboseLogged (msg : String)
  | errorLogged (msg : String)
  | handlerCalled (u : U) (err : Option String)
deriving DecidableEq

/-- `handleWebhook` (methods.go) as its trace of observable actions. Inputs:
`dec` models `json.Unmarshal` into the `Update` type (an oracle for the
stdlib decoder), `emptyU` is the zero `Update{}` value, and `readResult` is
the outcome of `io.ReadAll(req.Body)`. Mirrors the source branch for branch:
on read success and decode failure only `b.error` runs; on read success and
decode success the body is logged verbosely and the handler is called with a
nil error; on read failure `b.error` runs and the handler is called with the
empty update and the read error. -/
def handleWebhook {U : Type} (dec : String → Except String U) (emptyU : U)
    (readResult : Except String String) : List (WebhookEvent U) :=
  WebhookEvent.verboseLogged "received webhook request" ::
    match readResult with
    | Except.ok body =>
      match dec body with
      | Except.error e => [WebhookEvent.errorLogged ("error while parsing json (" ++ e ++ ")")]
      | Except.ok u =>
        [WebhookEvent.verboseLogged ("received webhook body: " ++ body),
         WebhookEvent.handlerCalled u none]
    | Except.error e =>
      [WebhookEvent.errorLogged ("error while reading webhook request (" ++ e ++ ")"),
       WebhookEvent.handlerCalled emptyU (some e)]

/-- Whether a trace event is an invocation of the update handler. -/
def isHandlerCall {U : Type} : WebhookEvent U → Bool
  | WebhookEvent.handlerCalled _ _ => true
  | _ => false

/-- C5 counterexample: a webhook body that reads successfully but is
malformed JSON. The handler trace contains no invocation of the registered
update handler at all — the decode failure is only logged, contradicting the
claim that it is reported to the handler. -/
theorem webhook_malformed_json_counterexample :
    (handleWebhook (fun _ => Except.error "invalid character 'n'") ()
        (Except.ok "not json")).all (fun e => !isHandlerCall e) = true
    ∧ handleWebhook (fun _ => Except.error "invalid character 'n'") ()
        (Except.ok "not json")
      = [WebhookEvent.verboseLogged "received webhook request",
         WebhookEvent.errorLogged "error while parsing json (invalid character 'n')"] := by
  exact ⟨by decide, by decide⟩

/-- C5 (amended): for a webhook body that reads successfully but contains
malformed JSON, `handleWebhook` logs the decode failure via the bot's error
logger and does not invoke the registered update handler; the handler is
invoked with an error only when reading the request body itself fails, and
with the decoded update (and nil error) when decoding succeeds. -/
theorem webhook_malformed_json_only_logged {U : Type}
    (dec : String → Except String U) (emptyU : U) :
    (∀ body e, dec body = Except.error e →
      handleWebhook dec emptyU (Except.ok body)
        = [WebhookEvent.verboseLogged "received webhook request",
           WebhookEvent.errorLogged ("error while parsing json (" ++ e ++ ")")]
      ∧ ∀ ev ∈ handleWebhook dec emptyU (Except.ok body), isHandlerCall ev = false)
    ∧ (∀ body u, dec body = Except.ok u →
        WebhookEvent.handlerCalled u none ∈ handleWebhook dec emptyU (Except.ok body))
    ∧ (∀ e, WebhookEvent.handlerCalled emptyU (some e)
          ∈ handleWebhook dec emptyU (Except.error e)) := by
  refine ⟨?_, ?_, ?_⟩
  · intro body e hdec
    constructor
    · simp [handleWebhook, hdec]
    · intro ev hev
      simp [handleWebhook, hdec] at hev
      rcases hev with h | h <;> simp [h, isHandlerCall]
  · intro body u hdec
    simp [handleWebhook, hdec]
  · intro e
    simp [handleWebhook]

/-- Witness for C5 (amended), at a concrete malformed body, a concrete
well-formed body, and a concrete read failure. -/
theorem webhook_malformed_json_only_logged_witness :
    ((fun b => if b = "ok" then Except.ok () else Except.error "bad") "not json"
        = Except.error "bad")
    ∧ handleWebhook (fun b => if b = "ok" then Except.ok () else Except.error "bad") ()
        (Except.ok "not json")
      = [WebhookEvent.verboseLogged "received webhook request",
         WebhookEvent.errorLogged "error while parsing json (bad)"]
    ∧ WebhookEvent.handlerCalled () none
        ∈ handleWebhook (fun b => if b = "ok" then Except.ok () else Except.error "bad") ()
            (Except.ok "ok")
    ∧ WebhookEvent.handlerCalled () (some "closed")
        ∈ handleWebhook (fun b => if b = "ok" then Except.ok () else Except.error "bad") ()
            (Except.error "closed") := by
  have h := webhook_malformed_json_only_logged
    (fun b => if b = "ok" then Except.ok () else Except.error "bad") ()
  exact ⟨by rfl, (h.1 "not json" "bad" (by rfl)).1,
    h.2.1 "ok" () (by rfl), h.2.2 "closed"⟩

/-- The backslash character (kept out of literals for clarity in escapes). -/
def backslashChar : Char := Char.ofNat 92

/-- The double-quote character. -/
def quoteChar : Char := Char.ofNat 34

/-- Go `mime/multipart` `escapeQuotes`: backslash-escape backslashes and
double quotes in a field or file name written into Content-Disposition. -/
def escapeQuotes (s : String) : String :=
  String.mk (s.data.flatMap fun c =>
    if c = backslashChar then [backslashChar, backslashChar]
    else if c = quoteChar then [backslashChar, quoteChar]
    else [c])

/-- Carriage return plus line feed. -/
def crlf : String := "\r\n"

/-- One part the multipart writer emits: a form file (with filename and
binary content) or a plain form field. -/
inductive PartItem where
  | filePart (field : String) (filename : String) (content : List Nat)
  | fieldPart (field : String) (value : String)
deriving DecidableEq

/-- Handle bookkeeping for one dispatch: the next OS handle id an `os.Open`
would allocate, and the currently open handles. -/
structure HandleState where
  nextHandle : Nat
  openHandles : List Nat
deriving DecidableEq

/-- Result of the parameter loop of `requestMultipartFormData`: the parts
written to the writer in order, the handles whose `Close` has been deferred
to the end of the surrounding call, and the handle state after all opens. -/
structure LoopOut where
  parts : List PartItem
  deferred : List Nat
  st : HandleState
deriving DecidableEq

/-- The parameter loop of `requestMultipartFormData` (methods.go), case by
case along the Go type switch. `fs` models `os.Open` (filepath to file name
plus content, `none` for an open error), `readFile` models `io.Copy` from an
already-open caller handle (`none` for a read error, which only logs and
leaves the part empty). An `*os.File` value gets `defer val.Close()`; an
`InputFile` with a filepath is opened — allocating a fresh handle — and gets
`defer file.Close()`; every per-field failure skips that field and
continues with the rest. -/
def multipartLoop (fs : String → Option (String × List Nat))
    (readFile : Nat → Option (List Nat)) :
    List (String × Value) → HandleState → LoopOut
  | [], st => ⟨[], [], st⟩
  | (key, v) :: rest, st =>
    match v with
    | Value.file h name =>
      let content := (readFile h).getD []
      let out := multipartLoop fs readFile rest st
      ⟨PartItem.filePart key name content :: out.parts, h :: out.deferred, out.st⟩
    | Value.bytes bs =>
      let out := multipartLoop fs readFile rest st
      ⟨PartItem.filePart key (key ++ "." ++ getExtension bs) bs :: out.parts,
        out.deferred, out.st⟩
    | Value.inputFile f =>
      match f.filepath with
      | some path =>
        match fs path with
        | some (name, content) =>
          let h := st.nextHandle
          let out := multipartLoop fs readFile rest
            ⟨st.nextHandle + 1, st.openHandles ++ [h]⟩
          ⟨PartItem.filePart key name content :: out.parts, h :: out.deferred, out.st⟩
        | none => multipartLoop fs readFile rest st
      | none =>
        if f.bytes.isEmpty = false then
          let out := multipartLoop fs readFile rest st
          ⟨PartItem.filePart key (key ++ "." ++ getExtension f.bytes) f.bytes :: out.parts,
            out.deferred, out.st⟩
        else
          match paramToString (Value.inputFile f) with
          | some s =>
            let out := multipartLoop fs readFile rest st
            ⟨PartItem.fieldPart key s :: out.parts, out.deferred, out.st⟩
          | none => multipartLoop fs readFile rest st
    | _ =>
      match paramToString v with
      | some s =>
        let out := multipartLoop fs readFile rest st
        ⟨PartItem.fieldPart key s :: out.parts, out.deferred, out.st⟩
      | none => multipartLoop fs readFile rest st

/-- The header block the writer emits for one part, as `CreateFormFile` and
`WriteField` of `mime/multipart` set it (header keys written in sorted
order: Content-Disposition before Content-Type). -/
def partHeader : PartItem → String
  | PartItem.filePart field filename _ =>
    "Content-Disposition: form-data; name=\"" ++ escapeQuotes field
      ++ "\"; filename=\"" ++ escapeQuotes filename ++ "\"" ++ crlf
      ++ "Content-Type: application/octet-stream" ++ crlf
  | PartItem.fieldPart field _ =>
    "Content-Disposition: form-data; name=\"" ++ escapeQuotes field ++ "\"" ++ crlf

/-- The content bytes of one part. -/
def partContent : PartItem → List Nat
  | PartItem.filePart _ _ content => content
  | PartItem.fieldPart _ value => strBytes value

/-- Render the parts in order as `mime/multipart` writes them: each part is
introduced by a boundary line (preceded by CRLF for every part after the
first), followed by its headers, a blank line, and its content. -/
def renderParts (boundary : String) : List PartItem → Bool → List Nat
  | [], _ => []
  | p :: ps, first =>
    strBytes ((if first then "" else crlf) ++ "--" ++ boundary ++ crlf
        ++ partHeader p ++ crlf)
      ++ partContent p ++ renderParts boundary ps false

/-- The full multipart body: all parts, then the closing
`CRLF--boundary--CRLF` appended by the writer's `Close`. -/
def renderMultipart (boundary : String) (parts : List PartItem) : List Nat :=
  renderParts boundary parts true ++ strBytes (crlf ++ "--" ++ boundary ++ "--" ++ crlf)

/-- The request body `requestMultipartFormData` builds, for the given writer
boundary (Go draws a fresh random boundary from `crypto/rand` each time the
writer is created; here it is an explicit input). -/
def multipartBody (boundary : String) (fs : String → Option (String × List Nat))
    (readFile : Nat → Option (List Nat)) (params : List (String × Value))
    (st : HandleState) : List Nat :=
  renderMultipart boundary (multipartLoop fs readFile params st).parts

/-- `requestMultipartFormData` (methods.go): run the parameter loop, build
the body, close every deferred handle (the `defer val.Close()` and
`defer file.Close()` calls run when the function returns, on every exit
path), and perform the exchange; the exchange outcome does not touch the
handle bookkeeping. Returns the exchange result and the final handle state. -/
def requestMultipartFormData (boundary : String)
    (fs : String → Option (String × List Nat)) (readFile : Nat → Option (List Nat))
    (exchange : List Nat → Except String (List Nat))
    (params : List (String × Value)) (st : HandleState) :
    Except String (List Nat) × HandleState :=
  let out := multipartLoop fs readFile params st
  (exchange (renderMultipart boundary out.parts),
   ⟨out.st.nextHandle, out.st.openHandles.filter fun h => decide (h ∉ out.deferred)⟩)

/-- The handles of the caller-supplied `*os.File` values in the parameter
set. -/
def fileParamHandles (params : List (String × Value)) : List Nat :=
  params.filterMap fun kv =>
    match kv.2 with
    | Value.file h _ => some h
    | _ => none

theorem multipartLoop_open_sub (fs : String → Option (String × List Nat))
    (readFile : Nat → Option (List Nat)) :
    ∀ (params : List (String × Value)) (st : HandleState) (h : Nat),
      h ∈ (multipartLoop fs readFile params st).st.openHandles →
        h ∈ st.openHandles ∨ h ∈ (multipartLoop fs readFile params st).deferred := by
  intro params
  induction params with
  | nil => intro st h hm; exact Or.inl hm
  | cons kv rest ih =>
    obtain ⟨key, v⟩ := kv
    intro st h hm
    cases v with
    | inputFile f =>
      cases hfp : f.filepath with
      | some path =>
        cases hfs : fs path with
        | some nc =>
          obtain ⟨name, content⟩ := nc
          simp only [multipartLoop, hfp, hfs] at hm ⊢
          rcases ih ⟨st.nextHandle + 1, st.openHandles ++ [st.nextHandle]⟩ h hm
            with hin | hdef
          · rcases List.mem_append.mp hin with hl | hr
            · exact Or.inl hl
            · right
              simp only [List.mem_singleton] at hr
              exact hr ▸ List.mem_cons_self _ _
          · exact Or.inr (List.mem_cons_of_mem _ hdef)
        | none =>
          simp only [multipartLoop, hfp, hfs] at hm ⊢
          exact ih st h hm
      | none =>
        by_cases hb : f.bytes.isEmpty = false
        · simp only [multipartLoop, hfp, if_pos hb] at hm ⊢
          exact ih st h hm
        · cases hps : paramToString (Value.inputFile f) with
          | some s =>
            simp only [multipartLoop, hfp, if_neg hb, hps] at hm ⊢
            exact ih st h hm
          | none =>
            simp only [multipartLoop, hfp, if_neg hb, hps] at hm ⊢
            exact ih st h hm
    | file hd name =>
      simp only [multipartLoop] at hm ⊢
      rcases ih st h hm with hin | hdef
      · exact Or.inl hin
      · exact Or.inr (List.mem_cons_of_mem _ hdef)
    | bytes bs =>
      simp only [multipartLoop] at hm ⊢
      exact ih st h hm
    | int n =>
      simp only [multipartLoop, paramToString] at hm ⊢
      exact ih st h hm
    | int64 n =>
      simp only [multipartLoop, paramToString] at hm ⊢
      exact ih st h hm
    | float32 q =>
      simp only [multipartLoop, paramToString] at hm ⊢
      exact ih st h hm
    | bool b =>
      simp only [multipartLoop, paramToString] at hm ⊢
      exact ih st h hm
    | str s =>
      simp only [multipartLoop, paramToString] at hm ⊢
      exact ih st h hm
    | chatAction s =>
      simp only [multipartLoop, paramToString] at hm ⊢
      exact ih st h hm
    | parseMode s =>
      simp only [multipartLoop, paramToString] at hm ⊢
      exact ih st h hm
    | other m =>
      cases hps : paramToString (Value.other m) with
      | some s =>
        simp only [multipartLoop, hps] at hm ⊢
        exact ih st h hm
      | none =>
        simp only [multipartLoop, hps] at hm ⊢
        exact ih st h hm

theorem multipartLoop_file_deferred (fs : String → Option (String × List Nat))
    (readFile : Nat → Option (List Nat)) :
    ∀ (params : List (String × Value)) (st : HandleState) (h : Nat),
      h ∈ fileParamHandles params →
        h ∈ (multipartLoop fs readFile params st).deferred := by
  intro params
  induction params with
  | nil => intro st h hm; cases hm
  | cons kv rest ih =>
    obtain ⟨key, v⟩ := kv
    intro st h hm
    cases v with
    | file hd name =>
      simp only [fileParamHandles, List.filterMap_cons] at hm
      rcases List.mem_cons.mp hm with heq | hrest
      · simp only [multipartLoop]
        exact heq ▸ List.mem_cons_self _ _
      · simp only [multipartLoop]
        exact List.mem_cons_of_mem _ (ih st h hrest)
    | inputFile f =>
      have hm' : h ∈ fileParamHandles rest := by
        simpa [fileParamHandles, List.filterMap_cons] using hm
      cases hfp : f.filepath with
      | some path =>
        cases hfs : fs path with
        | some nc =>
          obtain ⟨name, content⟩ := nc
          simp only [multipartLoop, hfp, hfs]
          exact List.mem_cons_of_mem _
            (ih ⟨st.nextHandle + 1, st.openHandles ++ [st.nextHandle]⟩ h hm')
        | none =>
          simp only [multipartLoop, hfp, hfs]
          exact ih st h hm'
      | none =>
        by_cases hb : f.bytes.isEmpty = false
        · simp only [multipartLoop, hfp, if_pos hb]
          exact ih st h hm'
        · cases hps : paramToString (Value.inputFile f) with
          | some s =>
            simp only [multipartLoop, hfp, if_neg hb, hps]
            exact ih st h hm'
          | none =>
            simp only [multipartLoop, hfp, if_neg hb, hps]
            exact ih st h hm'
    | bytes bs =>
      have hm' : h ∈ fileParamHandles rest := by
        simpa [fileParamHandles, List.filterMap_cons] using hm
      simp only [multipartLoop]
      exact ih st h hm'
    | int n =>
      have hm' : h ∈ fileParamHandles rest := by
        simpa [fileParamHandles, List.filterMap_cons] using hm
      simp only [multipartLoop, paramToString]
      exact ih st h hm'
    | int64 n =>
      have hm' : h ∈ fileParamHandles rest := by
        simpa [fileParamHandles, List.filterMap_cons] using hm
      simp only [multipartLoop, paramToString]
      exact ih st h hm'
    | float32 q =>
      have hm' : h ∈ fileParamHandles rest := by
        simpa [fileParamHandles, List.filterMap_cons] using hm
      simp only [multipartLoop, paramToString]
      exact ih st h hm'
    | bool b =>
      have hm' : h ∈ fileParamHandles rest := by
        simpa [fileParamHandles, List.filterMap_cons] using hm
      simp only [multipartLoop, paramToString]
      exact ih st h hm'
    | str s =>
      have hm' : h ∈ fileParamHandles rest := by
        simpa [fileParamHandles, List.filterMap_cons] using hm
      simp only [multipartLoop, paramToString]
      exact ih st h hm'
    | chatAction s =>
      have hm' : h ∈ fileParamHandles rest := by
        simpa [fileParamHandles, List.filterMap_cons] using hm
      simp only [multipartLoop, paramToString]
      exact ih st h hm'
    | parseMode s =>
      have hm' : h ∈ fileParamHandles rest := by
        simpa [fileParamHandles, List.filterMap_cons] using hm
      simp only [multipartLoop, paramToString]
      exact ih st h hm'
    | other m =>
      have hm' : h ∈ fileParamHandles rest := by
        simpa [fileParamHandles, List.filterMap_cons] using hm
      cases hps : paramToString (Value.other m) with
      | some s =>
        simp only [multipartLoop, hps]
        exact ih st h hm'
      | none =>
        simp only [multipartLoop, hps]
        exact ih st h hm'

/-- C9: every file handle open when a multipart dispatch returns was already
open before the call and does not belong to any caller-supplied `*os.File`
parameter — equivalently, every handle the dispatch opened (from an
`InputFile` filepath) and every caller-supplied `*os.File` handle has been
closed by return. This holds for every filesystem, read and exchange
behaviour, so it covers the success path, per-field failures (open or read
errors), and a failing HTTP exchange alike. -/
theorem multipart_closes_all_handles (boundary : String)
    (fs : String → Option (String × List Nat)) (readFile : Nat → Option (List Nat))
    (exchange : List Nat → Except String (List Nat))
    (params : List (String × Value)) (st : HandleState) (h : Nat)
    (hmem : h ∈ (requestMultipartFormData boundary fs readFile exchange
        params st).2.openHandles) :
    h ∈ st.openHandles ∧ h ∉ fileParamHandles params := by
  simp only [requestMultipartFormData, List.mem_filter, decide_eq_true_eq] at hmem
  obtain ⟨hopen, hnd⟩ := hmem
  constructor
  · rcases multipartLoop_open_sub fs readFile params st h hopen with hin | hdef
    · exact hin
    · exact absurd hdef hnd
  · intro hfile
    exact hnd (multipartLoop_file_deferred fs readFile params st h hfile)

/-- Witness for C9 at a concrete dispatch: handle 2 is a caller-supplied
`*os.File` parameter and handle 4 gets opened from an `InputFile` filepath
(the filesystem oracle serves it); after a dispatch whose exchange fails,
only the unrelated handle 3 remains open. -/
theorem multipart_closes_all_handles_witness :
    (3 ∈ (requestMultipartFormData "bnd" (fun _ => some ("f.png", [9, 9]))
        (fun _ => some [7]) (fun _ => Except.error "boom")
        [("photo", Value.file 2 "p.png"),
         ("doc", Value.inputFile ⟨none, none, some "/tmp/a", []⟩)]
        ⟨4, [3, 2]⟩).2.openHandles)
    ∧ (3 ∈ [3, 2] ∧ 3 ∉ fileParamHandles
        [("photo", Value.file 2 "p.png"),
         ("doc", Value.inputFile ⟨none, none, some "/tmp/a", []⟩)])
    ∧ (requestMultipartFormData "bnd" (fun _ => some ("f.png", [9, 9]))
        (fun _ => some [7]) (fun _ => Except.error "boom")
        [("photo", Value.file 2 "p.png"),
         ("doc", Value.inputFile ⟨none, none, some "/tmp/a", []⟩)]
        ⟨4, [3, 2]⟩).2.openHandles = [3] := by
  refine ⟨by decide, ?_, by decide⟩
  exact multipart_closes_all_handles "bnd" (fun _ => some ("f.png", [9, 9]))
    (fun _ => some [7]) (fun _ => Except.error "boom")
    [("photo", Value.file 2 "p.png"),
     ("doc", Value.inputFile ⟨none, none, some "/tmp/a", []⟩)]
    ⟨4, [3, 2]⟩ 3 (by decide)

theorem collectParams_eq_filterMap (ps : List (String × Value)) :
    collectParams ps
      = ps.filterMap fun kv => (paramToString kv.2).map fun s => (kv.1, s) := by
  induction ps with
  | nil => rfl
  | cons kv rest ih =>
    obtain ⟨k, v⟩ := kv
    simp only [collectParams, List.filterMap_cons]
    cases paramToString v <;> simp [ih]

theorem collectParams_keys_sublist (ps : List (String × Value)) :
    ((collectParams ps).map Prod.fst).Sublist (ps.map Prod.fst) := by
  induction ps with
  | nil => simp [collectParams]
  | cons kv rest ih =>
    obtain ⟨k, v⟩ := kv
    simp only [collectParams]
    cases paramToString v with
    | some s =>
      simp only [List.map_cons]
      exact ih.cons₂ k
    | none => exact ih.cons k

theorem char_toNat_injective : Function.Injective Char.toNat := by
  intro a b h
  apply Char.ext
  apply UInt32.ext
  simpa [Char.toNat] using h

theorem strBytes_injective : Function.Injective strBytes := by
  intro a b h
  simp only [strBytes] at h
  exact String.ext (List.map_injective_iff.mpr char_toNat_injective h)

theorem strBytes_append (x y : String) : strBytes (x ++ y) = strBytes x ++ strBytes y := by
  simp [strBytes, String.data_append]

theorem strBytes_empty : strBytes "" = [] := rfl

theorem strBytes_boundary_cancel {b1 b2 : String} {r1 r2 : List Nat}
    (hlen : b1.length = b2.length) (hne : b1 ≠ b2) :
    strBytes b1 ++ r1 ≠ strBytes b2 ++ r2 := by
  intro he
  have hd : b1.data.length = b2.data.length := hlen
  have hl : (strBytes b1).length = (strBytes b2).length := by
    simp [strBytes, hd]
  obtain ⟨h1, -⟩ := List.append_inj he hl
  exact hne (strBytes_injective h1)

/-- C8 counterexample: the multipart body embeds the writer's boundary,
which Go draws at random from `crypto/rand` on every encoding; two encodings
of the same parameter set under two boundary draws give different bodies, so
the encoding is not byte-identical across runs. -/
theorem encoding_idempotence_counterexample :
    multipartBody "boundary1" (fun _ => none) (fun _ => none)
        [("photo", Value.bytes [1, 2])] ⟨0, []⟩
      ≠ multipartBody "boundary2" (fun _ => none) (fun _ => none)
        [("photo", Value.bytes [1, 2])] ⟨0, []⟩ := by
  decide

/-- C8 (amended): the urlencoded body is deterministic — `Encode` sorts the
fields by key, so any two map-iteration orders of the same parameter set
(with unique field names) produce byte-identical bodies. The multipart body
is deterministic only up to the writer's randomly drawn boundary: bodies
built from distinct (equal-length, as Go's random boundaries are) boundaries
always differ, so re-encoding the same set is not byte-identical. -/
theorem encoding_determinism_amended :
    (∀ l1 l2 : List (String × Value), l1.Perm l2 → (l1.map Prod.fst).Nodup →
      urlencodedBody l1 = urlencodedBody l2)
    ∧ (∀ (b1 b2 : String) (fs : String → Option (String × List Nat))
        (readFile : Nat → Option (List Nat)) (params : List (String × Value))
        (st : HandleState), b1.length = b2.length → b1 ≠ b2 →
        multipartBody b1 fs readFile params st
          ≠ multipartBody b2 fs readFile params st) := by
  constructor
  · intro l1 l2 hp hnd
    unfold urlencodedBody
    apply valuesEncode_perm
    · rw [collectParams_eq_filterMap, collectParams_eq_filterMap]
      exact hp.filterMap _
    · exact List.Nodup.sublist (collectParams_keys_sublist l1) hnd
  · intro b1 b2 fs readFile params st hlen hne
    unfold multipartBody renderMultipart
    cases hparts : (multipartLoop fs readFile params st).parts with
    | nil =>
      simp only [renderParts, List.nil_append, strBytes_append, List.append_assoc]
      intro he
      have he1 := List.append_cancel_left he
      have he2 := List.append_cancel_left he1
      exact strBytes_boundary_cancel hlen hne he2
    | cons p ps =>
      simp only [renderParts, if_true, strBytes_empty, strBytes_append,
        List.nil_append, List.append_assoc]
      intro he
      have he1 := List.append_cancel_left he
      exact strBytes_boundary_cancel hlen hne he1

/-- Witness for C8 (amended): two iteration orders of the same two-field set
encode to the same urlencoded body, and two boundary draws of equal length
give different multipart bodies. -/
theorem encoding_determinism_amended_witness :
    ([("b", Value.str "2"), ("a", Value.str "1")].Perm
        [("a", Value.str "1"), ("b", Value.str "2")]
      ∧ ([("b", Value.str "2"), ("a", Value.str "1")].map Prod.fst).Nodup
      ∧ ("xx" : String).length = ("yy" : String).length ∧ ("xx" : String) ≠ "yy")
    ∧ urlencodedBody [("b", Value.str "2"), ("a", Value.str "1")]
        = urlencodedBody [("a", Value.str "1"), ("b", Value.str "2")]
    ∧ multipartBody "xx" (fun _ => none) (fun _ => none)
        [("photo", Value.bytes [1, 2])] ⟨0, []⟩
      ≠ multipartBody "yy" (fun _ => none) (fun _ => none)
        [("photo", Value.bytes [1, 2])] ⟨0, []⟩ := by
  refine ⟨⟨by decide, by decide, by decide, by decide⟩, ?_, ?_⟩
  · exact encoding_determinism_amended.1 _ _ (by decide) (by decide)
  · exact encoding_determinism_amended.2 "xx" "yy" _ _ _ _ (by decide) (by decide)

/-- A parsed JSON value — the shape `encoding/json` inspects before binding
into a Go struct. Numbers are restricted to integers, which covers the
envelope fields the decoders at issue bind (`message_id`, `error_code`). -/
inductive JSON where
  | null
  | bool (b : Bool)
  | num (n : Int)
  | str (s : String)
  | arr (xs : List JSON)
  | obj (fields : List (String × JSON))

/-- Modelled from the spec: the generic envelope `APIResponse[T]` (declared
outside `methods.go`): `{ok bool; result *T; description *string;
error_code *int}` with the pointer fields optional. -/
structure APIResponse (α : Type) where
  ok : Bool
  result : Option α
  description : Option String
  errorCode : Option Int
deriving DecidableEq

/-- Modelled from the spec: the `Message` record (declared outside
`methods.go`), reduced to the structured-record skeleton the claims
exercise — its `message_id` field; only a JSON object can bind into it. -/
structure Message where
  messageID : Int
deriving DecidableEq

/-- Last-wins association-list lookup: `encoding/json` fills a struct field
from the last occurrence of a duplicated key. -/
def lookupLast (fields : List (String × JSON)) (name : String) : Option JSON :=
  List.lookup name fields.reverse

/-- Go `json.Unmarshal` of a JSON value into a `bool` struct field: an
absent field or `null` is a no-op (the zero value `false` remains), a
boolean binds, anything else is an `UnmarshalTypeError`. -/
def decodeBoolField : Option JSON → Except Unit Bool
  | none => Except.ok false
  | some JSON.null => Except.ok false
  | some (JSON.bool b) => Except.ok b
  | some _ => Except.error ()

/-- Optional `*string` field: absent or `null` leaves the nil pointer. -/
def decodeStrField : Option JSON → Except Unit (Option String)
  | none => Except.ok none
  | some JSON.null => Except.ok none
  | some (JSON.str s) => Except.ok (some s)
  | some _ => Except.error ()

/-- Optional `*int` field: absent or `null` leaves the nil pointer. -/
def decodeIntField : Option JSON → Except Unit (Option Int)
  | none => Except.ok none
  | some JSON.null => Except.ok none
  | some (JSON.num n) => Except.ok (some n)
  | some _ => Except.error ()

/-- Optional result slot `*T`: absent or `null` leaves the nil pointer; a
present value decodes with the element decoder. -/
def decodeResultField {α : Type} (decRes : JSON → Except Unit α) :
    Option JSON → Except Unit (Option α)
  | none => Except.ok none
  | some JSON.null => Except.ok none
  | some v => (decRes v).map some

/-- Go `json.Unmarshal` of a response body into `APIResponse[T]`: the body
must be valid JSON (`none` models unparseable bytes) and the top level must
be an object (or `null`, which Go leaves as the zero struct without error);
each known field binds by its JSON tag, unknown fields are ignored, and any
type mismatch in a known field makes the whole unmarshal return an error. -/
def decodeAPIResponse {α : Type} (decRes : JSON → Except Unit α) :
    Option JSON → Except Unit (APIResponse α)
  | none => Except.error ()
  | some JSON.null => Except.ok ⟨false, none, none, none⟩
  | some (JSON.obj fields) => do
    let ok ← decodeBoolField (lookupLast fields "ok")
    let result ← decodeResultField decRes (lookupLast fields "result")
    let description ← decodeStrField (lookupLast fields "description")
    let errorCode ← decodeIntField (lookupLast fields "error_code")
    Except.ok ⟨ok, result, description, errorCode⟩
  | some _ => Except.error ()

/-- Decoder for the `Message` result slot: a JSON object binds (taking
`message_id` when present, the zero value otherwise; unknown fields
ignored); any other shape — a boolean, a string, a number, an array — is a
type error. -/
def decodeMessage : JSON → Except Unit Message
  | JSON.obj fields =>
    match lookupLast fields "message_id" with
    | none => Except.ok ⟨0⟩
    | some JSON.null => Except.ok ⟨0⟩
    | some (JSON.num n) => Except.ok ⟨n⟩
    | some _ => Except.error ()
  | _ => Except.error ()

/-- Decoder for a `bool` result slot: only a JSON boolean binds. -/
def decodeBoolResult : JSON → Except Unit Bool
  | JSON.bool b => Except.ok b
  | _ => Except.error ()

/-- Modelled from the spec: `APIResponseMessageOrBool` (declared outside
`methods.go`): the dual-shape envelope with both result slots. -/
structure APIResponseMessageOrBool where
  ok : Bool
  description : Option String
  resultMessage : Option Message
  resultBool : Option Bool
deriving DecidableEq

/-- `requestMessageOrBool` (methods.go): perform the request; on transport
failure return a failure envelope described by `method failed with error: …`.
On success first try to unmarshal `APIResponse[Message]` — if that succeeds,
return the record variant with `Ok` set to the literal `true` the source
writes (not the body's own `ok` flag); otherwise try `APIResponse[bool]` and
likewise return the boolean variant with `Ok: true`; if both attempts fail,
return a failure envelope whose description names both attempted shapes and
quotes the raw body. The request outcome carries the raw body text alongside
its parsed JSON value (`none` when the bytes are not valid JSON), since both
unmarshal attempts read the same bytes. -/
def requestMessageOrBool (method : String)
    (reqResult : Except String (String × Option JSON)) : APIResponseMessageOrBool :=
  match reqResult with
  | Except.ok (raw, j) =>
    match decodeAPIResponse decodeMessage j with
    | Except.ok r => ⟨true, r.description, r.result, none⟩
    | Except.error _ =>
      match decodeAPIResponse decodeBoolResult j with
      | Except.ok r => ⟨true, r.description, none, r.result⟩
      | Except.error _ =>
        ⟨false,
          some ("json parse error: not in Message nor bool type (" ++ raw ++ ")"),
          none, none⟩
  | Except.error e =>
    ⟨false, some (method ++ " failed with error: " ++ e), none, none⟩

/-- C2: the dual-shape decoder first attempts the envelope with a structured
`Message` result and returns the record variant on success; otherwise it
attempts the envelope with a boolean result and returns the boolean variant
on success; when neither shape decodes (e.g. the result slot holds a
string), it returns a failure envelope noting both attempted shapes and the
raw body. -/
theorem dual_shape_decode_order (method raw : String) (j : Option JSON) :
    (∀ r : APIResponse Message,
      decodeAPIResponse decodeMessage j = Except.ok r →
        requestMessageOrBool method (Except.ok (raw, j))
          = ⟨true, r.description, r.result, none⟩)
    ∧ (decodeAPIResponse decodeMessage j = Except.error () →
        ∀ r : APIResponse Bool,
          decodeAPIResponse decodeBoolResult j = Except.ok r →
            requestMessageOrBool method (Except.ok (raw, j))
              = ⟨true, r.description, none, r.result⟩)
    ∧ (decodeAPIResponse decodeMessage j = Except.error () →
        decodeAPIResponse decodeBoolResult j = Except.error () →
          requestMessageOrBool method (Except.ok (raw, j))
            = ⟨false,
                some ("json parse error: not in Message nor bool type (" ++ raw ++ ")"),
                none, none⟩) := by
  refine ⟨?_, ?_, ?_⟩
  · intro r hm
    simp only [requestMessageOrBool, hm]
  · intro hm r hb
    simp only [requestMessageOrBool, hm, hb]
  · intro hm hb
    simp only [requestMessageOrBool, hm, hb]

/-- Witness for C2 at the spec's three example bodies: a structured-record
result decodes to the record variant, a boolean result to the boolean
variant, and a string result fails both shapes and yields the failure
envelope quoting both attempted shapes. -/
theorem dual_shape_decode_order_witness :
    requestMessageOrBool "editMessageText"
        (Except.ok ("\x7b\"ok\":true,\"result\":\x7b\"message_id\":5\x7d\x7d",
          some (JSON.obj [("ok", JSON.bool true),
            ("result", JSON.obj [("message_id", JSON.num 5)])])))
      = ⟨true, none, some ⟨5⟩, none⟩
    ∧ requestMessageOrBool "editMessageText"
        (Except.ok ("\x7b\"ok\":true,\"result\":true\x7d",
          some (JSON.obj [("ok", JSON.bool true), ("result", JSON.bool true)])))
      = ⟨true, none, none, some true⟩
    ∧ requestMessageOrBool "editMessageText"
        (Except.ok ("\x7b\"ok\":true,\"result\":\"x\"\x7d",
          some (JSON.obj [("ok", JSON.bool true), ("result", JSON.str "x")])))
      = ⟨false,
          some "json parse error: not in Message nor bool type (\x7b\"ok\":true,\"result\":\"x\"\x7d)",
          none, none⟩ := by
  refine ⟨?_, ?_, ?_⟩
  · exact (dual_shape_decode_order "editMessageText" _ _).1 ⟨true, some ⟨5⟩, none, none⟩ (by rfl)
  · exact (dual_shape_decode_order "editMessageText" _ _).2.1 (by rfl)
      ⟨true, some true, none, none⟩ (by rfl)
  · exact (dual_shape_decode_order "editMessageText" _ _).2.2 (by rfl) (by rfl)

/-- C10: whenever the body unmarshals as `APIResponse[Message]` — including
a platform failure body such as `{"ok":false,"description":…}` whose result
slot is simply absent — the dual-shape decoder returns an envelope with
`Ok = true` regardless of the body's own `ok` flag, the message slot as
decoded (possibly empty), and an empty boolean slot. -/
theorem dual_shape_message_success_forces_ok (method raw : String) (j : Option JSON)
    (env : APIResponse Message)
    (hdec : decodeAPIResponse decodeMessage j = Except.ok env) :
    (requestMessageOrBool method (Except.ok (raw, j))).ok = true
    ∧ (requestMessageOrBool method (Except.ok (raw, j))).resultMessage = env.result
    ∧ (requestMessageOrBool method (Except.ok (raw, j))).resultBool = none := by
  simp [requestMessageOrBool, hdec]

/-- Witness for C10 at a concrete platform failure body: `ok` is `false` in
the body and the result slot is absent, yet the decoder reports `Ok = true`
with both result slots empty. -/
theorem dual_shape_message_success_forces_ok_witness :
    decodeAPIResponse decodeMessage
        (some (JSON.obj [("ok", JSON.bool false),
          ("description", JSON.str "Bad Request: chat not found")]))
      = Except.ok ⟨false, none, some "Bad Request: chat not found", none⟩
    ∧ (requestMessageOrBool "editMessageText"
        (Except.ok ("\x7b\"ok\":false,\"description\":\"Bad Request: chat not found\"\x7d",
          some (JSON.obj [("ok", JSON.bool false),
            ("description", JSON.str "Bad Request: chat not found")])))).ok = true
    ∧ (requestMessageOrBool "editMessageText"
        (Except.ok ("\x7b\"ok\":false,\"description\":\"Bad Request: chat not found\"\x7d",
          some (JSON.obj [("ok", JSON.bool false),
            ("description", JSON.str "Bad Request: chat not found")])))).resultMessage = none
    ∧ (requestMessageOrBool "editMessageText"
        (Except.ok ("\x7b\"ok\":false,\"description\":\"Bad Request: chat not found\"\x7d",
          some (JSON.obj [("ok", JSON.bool false),
            ("description", JSON.str "Bad Request: chat not found")])))).resultBool = none := by
  have h := dual_shape_message_success_forces_ok "editMessageText"
    "\x7b\"ok\":false,\"description\":\"Bad Request: chat not found\"\x7d"
    (some (JSON.obj [("ok", JSON.bool false),
      ("description", JSON.str "Bad Request: chat not found")]))
    ⟨false, none, some "Bad Request: chat not found", none⟩ (by rfl)
  exact ⟨by rfl, h.1, h.2.1, h.2.2⟩

end TelegramBot
